import Mathlib

/-!
# Versioned-agent core: registry and router

Shallow embedding of the version resolution and mutation engine of the
repository: `AgentRegistry` (src/core/agent-registry.ts) and
`VersionRouter` (src/core/version-router.ts), together with the data
model of src/core/types.ts that those two classes read.

Modelling conventions:
* JavaScript `Map`s become insertion-ordered association lists;
  `Map.set` replaces the entry with the given key in place and appends
  when the key is absent, `Map.delete` filters the key out.
* A thrown exception becomes `Except.error`, returned together with the
  state as it stands at the throw site — JavaScript exceptions do not
  roll back mutations already performed, so every operation returns its
  result and its post-state even when it throws.
* `new Date()` timestamps become an explicit `now : Nat` argument.
* JavaScript truthiness tests on optional strings (`if (x)`,
  `x?.field`, `a || b`) are modelled exactly: `null`/`undefined` and
  the empty string are falsy.
-/

/-- JavaScript truthiness of an optional string: absent and the empty
string are falsy, every other string is truthy. -/
def jsTruthy : Option String → Bool
  | none => false
  | some s => s != ""

/-- JavaScript `a || b` on an optional string with a string fallback. -/
def jsOr : Option String → String → String
  | none, d => d
  | some s, d => if s = "" then d else s

/-- `Map.get`: the value of the entry with the given key, if any. -/
def mapGet {β : Type} (m : List (String × β)) (k : String) : Option β :=
  (m.find? (fun p => p.1 == k)).map (·.2)

/-- `Map.set`: replace the entry with the given key in place, appending
a fresh entry at the end when the key is absent. -/
def mapSet {β : Type} : List (String × β) → String → β → List (String × β)
  | [], k, v => [(k, v)]
  | (k', v') :: rest, k, v =>
    if k' = k then (k, v) :: rest else (k', v') :: mapSet rest k v

/-- The removal effect of `Map.delete`. -/
def mapDelete {β : Type} (m : List (String × β)) (k : String) : List (String × β) :=
  m.filter (fun p => p.1 != k)

/-- `Map.has`. -/
def mapHasKey {β : Type} (m : List (String × β)) (k : String) : Bool :=
  m.any (fun p => p.1 == k)

/-- Whether a call outcome is a thrown exception. -/
def isErr {ε α : Type} : Except ε α → Bool
  | .error _ => true
  | .ok _ => false

/-- Model provider tag (types.ts `ModelProvider`). -/
inductive ModelProvider where
  | openai
  | anthropic
  deriving DecidableEq

/-- Agent configuration (types.ts `AgentConfig`).  The free-form
`parameters` and `metadata` fields are read by no registry or router
operation and carry no constraint a well-typed value could violate, so
they are omitted. -/
structure AgentConfig where
  version : String
  prompt : String
  provider : ModelProvider
  model : String
  temperature : ℚ
  maxTokens : Option ℚ
  deriving DecidableEq

/-- The runtime check `AgentConfigSchema.parse` performs on a well-typed
`AgentConfig` (types.ts lines 470–484): non-empty version, prompt and
model strings, temperature within [0, 2], positive `maxTokens` when
present.  The provider enum and the metadata shape are enforced by the
host types and cannot fail for a typed value. -/
def validConfig (c : AgentConfig) : Bool :=
  c.version != "" && c.prompt != "" && c.model != "" &&
    decide ((0 : ℚ) ≤ c.temperature) && decide (c.temperature ≤ (2 : ℚ)) &&
    (match c.maxTokens with
     | none => true
     | some t => decide ((0 : ℚ) < t))

/-- Registry state (agent-registry.ts lines 27–29). -/
structure AgentRegistry where
  configs : List (String × AgentConfig)
  defaultVersion : Option String
  deriving DecidableEq

/-- Numeric value of a non-empty digit run (`parseInt(ds, 10)`). -/
def digitsVal (ds : List Char) : Nat :=
  ds.foldl (fun n c => 10 * n + (c.toNat - '0'.toNat)) 0

/-- The regex match `v.match(/^v?(\d+)\.(\d+)(?:\.(\d+))?/)` of
agent-registry.ts line 95: an optional leading `v`, then a digit run,
a dot, a digit run, then optionally a dot and a third digit run; the
rest of the string is unconstrained (the pattern is not `$`-anchored).
Returns the (major, minor, patch) triple, patch defaulting to 0. -/
def parseSemver (v : String) : Option (Nat × Nat × Nat) :=
  let cs : List Char :=
    match v.data with
    | 'v' :: rest => rest
    | cs => cs
  let p1 := cs.span (·.isDigit)
  if p1.1 = [] then none
  else
    match p1.2 with
    | '.' :: r2 =>
      let p2 := r2.span (·.isDigit)
      if p2.1 = [] then none
      else
        let patch : Nat :=
          match p2.2 with
          | '.' :: r4 =>
            let p3 := r4.span (·.isDigit)
            if p3.1 = [] then 0 else digitsVal p3.1
          | _ => 0
        some (digitsVal p1.1, digitsVal p2.1, patch)
    | _ => none

/-- Strict lexicographic "greater" on (major, minor, patch) triples —
the descending order of the sort comparator in agent-registry.ts lines
107–111. -/
def semGt (a b : Nat × Nat × Nat) : Bool :=
  decide (b.1 < a.1 ∨ (a.1 = b.1 ∧ (b.2.1 < a.2.1 ∨ (a.2.1 = b.2.1 ∧ b.2.2 < a.2.2))))

/-- First element of the stably descending-sorted match list
(`semanticVersions[0]`): starting from the first match, a later match
replaces the current best only when its triple is strictly greater,
which is exactly the earliest entry attaining the maximal triple. -/
def pickBest (x : String × (Nat × Nat × Nat)) :
    List (String × (Nat × Nat × Nat)) → String × (Nat × Nat × Nat)
  | [] => x
  | c :: rest => pickBest (if semGt c.2 x.2 then c else x) rest

namespace AgentRegistry

/-- `register(config)` (agent-registry.ts lines 34–45): validate
against the schema, store under the config's version key, and make that
version the default when no default is set yet. -/
def register (r : AgentRegistry) (c : AgentConfig) :
    Except String Unit × AgentRegistry :=
  if !validConfig c then (.error "ValidationError", r)
  else
    let r := { r with configs := mapSet r.configs c.version c }
    if !jsTruthy r.defaultVersion then
      (.ok (), { r with defaultVersion := some c.version })
    else (.ok (), r)

/-- `get(version)` (lines 50–52). -/
def get (r : AgentRegistry) (v : String) : Option AgentConfig :=
  mapGet r.configs v

/-- `getVersions()` (lines 57–59): the keys, in insertion order. -/
def getVersions (r : AgentRegistry) : List String :=
  r.configs.map (·.1)

/-- `has(version)` (lines 64–66). -/
def has (r : AgentRegistry) (v : String) : Bool :=
  mapHasKey r.configs v

/-- `setDefaultVersion(version)` (lines 71–76). -/
def setDefaultVersion (r : AgentRegistry) (v : String) :
    Except String Unit × AgentRegistry :=
  if !r.has v then (.error ("Version " ++ v ++ " not found in registry"), r)
  else (.ok (), { r with defaultVersion := some v })

/-- `getDefaultVersion()` (lines 81–83). -/
def getDefaultVersion (r : AgentRegistry) : Option String :=
  r.defaultVersion

/-- `getLatestVersion()` (lines 88–119): among the registered
identifiers that match the semantic-version pattern, the first element
of the stable descending sort; when none matches,
`this.defaultVersion || versions[0]`; `null` only on an empty
registry. -/
def getLatestVersion (r : AgentRegistry) : Option String :=
  let versions := r.getVersions
  if versions.isEmpty then none
  else
    match versions.filterMap (fun v => (parseSemver v).map (fun t => (v, t))) with
    | [] => some (jsOr r.defaultVersion (versions.headD ""))
    | x :: xs => some (pickBest x xs).1

/-- `remove(version)` (lines 124–129): refuse to remove the current
default; otherwise delete and report whether the key was present. -/
def remove (r : AgentRegistry) (v : String) :
    Except String Bool × AgentRegistry :=
  if r.defaultVersion = some v then
    (.error ("Cannot remove default version " ++ v ++ ". Set a new default first."), r)
  else (.ok (r.has v), { r with configs := mapDelete r.configs v })

/-- `clear()` (lines 141–144). -/
def clear (_ : AgentRegistry) : AgentRegistry :=
  { configs := [], defaultVersion := none }

end AgentRegistry

/-- A user's pin (types.ts `UserVersionPin`); `pinnedAt` carries the
`new Date()` timestamp as a number. -/
structure UserVersionPin where
  userId : String
  version : String
  pinnedAt : Nat
  reason : Option String
  deriving DecidableEq

/-- Tenant configuration (types.ts `TenantConfig`).  The execution-time
`promptOverrides`, the advisory `costLimits` and the `features` map are
read by no router operation and are omitted. -/
structure TenantConfig where
  tenantId : String
  defaultVersion : Option String
  deriving DecidableEq

/-- Global configuration (types.ts `GlobalConfig`); the optional
`globalCostLimits` is read by no router operation and is omitted. -/
structure GlobalConfig where
  defaultVersion : String
  availableVersions : List String
  deriving DecidableEq

/-- Execution context (types.ts `ExecutionContext`); the free-form
`context` map is read by no router operation and is omitted. -/
structure ExecutionContext where
  userId : String
  tenantId : Option String
  version : Option String
  input : String
  deriving DecidableEq

/-- Routing strategy (types.ts `RoutingStrategy`). -/
inductive RoutingStrategy where
  | pin
  | latest
  | tenantDefault
  | globalDefault
  deriving DecidableEq

/-- Router state (version-router.ts lines 26–30), holding the shared
registry it mutates through `setGlobalConfig`. -/
structure VersionRouter where
  registry : AgentRegistry
  userPins : List (String × UserVersionPin)
  tenantConfigs : List (String × TenantConfig)
  globalConfig : Option GlobalConfig
  deriving DecidableEq

namespace VersionRouter

/-- `setGlobalConfig(config)` (version-router.ts lines 39–49).  Note
the source order: the config is stored first, the existence check runs
afterwards, and only then is the registry default updated. -/
def setGlobalConfig (s : VersionRouter) (config : GlobalConfig) :
    Except String Unit × VersionRouter :=
  let s := { s with globalConfig := some config }
  if !s.registry.has config.defaultVersion then
    (.error ("Default version " ++ config.defaultVersion ++ " not found in registry"), s)
  else
    let p := s.registry.setDefaultVersion config.defaultVersion
    (p.1, { s with registry := p.2 })

/-- `getGlobalConfig()` (lines 54–56). -/
def getGlobalConfig (s : VersionRouter) : Option GlobalConfig :=
  s.globalConfig

/-- `pinUser(userId, version, reason?)` (lines 61–72). -/
def pinUser (s : VersionRouter) (userId version : String)
    (reason : Option String) (now : Nat) : Except String Unit × VersionRouter :=
  if !s.registry.has version then
    (.error ("Version " ++ version ++ " not found in registry"), s)
  else
    let pin : UserVersionPin :=
      { userId := userId, version := version, pinnedAt := now, reason := reason }
    (.ok (), { s with userPins := mapSet s.userPins userId pin })

/-- `unpinUser(userId)` (lines 77–79). -/
def unpinUser (s : VersionRouter) (userId : String) : Bool × VersionRouter :=
  (mapHasKey s.userPins userId, { s with userPins := mapDelete s.userPins userId })

/-- `getUserPin(userId)` (lines 84–86). -/
def getUserPin (s : VersionRouter) (userId : String) : Option UserVersionPin :=
  mapGet s.userPins userId

/-- `setTenantConfig(tenantId, config)` (lines 91–98).  As with
`setGlobalConfig`, the source stores the config first and validates the
(truthy) tenant default version afterwards. -/
def setTenantConfig (s : VersionRouter) (tenantId : String) (config : TenantConfig) :
    Except String Unit × VersionRouter :=
  let s := { s with tenantConfigs := mapSet s.tenantConfigs tenantId config }
  if jsTruthy config.defaultVersion && !s.registry.has (config.defaultVersion.getD "") then
    (.error ("Tenant default version " ++ config.defaultVersion.getD "" ++ " not found in registry"), s)
  else (.ok (), s)

/-- `getTenantConfig(tenantId)` (lines 103–105). -/
def getTenantConfig (s : VersionRouter) (tenantId : String) : Option TenantConfig :=
  mapGet s.tenantConfigs tenantId

/-- `resolveVersion(context, strategy?)` (lines 110–163).  The final
`Unknown routing strategy` throw of line 162 is unreachable here: the
guard of line 154 enumerates every member of the `RoutingStrategy`
union, so a well-typed strategy always reaches the latest fallback. -/
def resolveVersion (s : VersionRouter) (context : ExecutionContext)
    (strategy : Option RoutingStrategy) : Except String String :=
  if jsTruthy context.version then
    let v := context.version.getD ""
    if !s.registry.has v then
      .error ("Requested version " ++ v ++ " not found in registry")
    else .ok v
  else
    let rs := strategy.getD .pin
    match (if rs = .pin then mapGet s.userPins context.userId else none) with
    | some p => .ok p.version
    | none =>
      match (if (rs = .pin ∨ rs = .tenantDefault) ∧ jsTruthy context.tenantId then
               match mapGet s.tenantConfigs (context.tenantId.getD "") with
               | some tc => if jsTruthy tc.defaultVersion then tc.defaultVersion else none
               | none => none
             else none) with
      | some v => .ok v
      | none =>
        match (if rs = .pin ∨ rs = .tenantDefault ∨ rs = .globalDefault then
                 match s.globalConfig with
                 | some gc => if gc.defaultVersion ≠ "" then some gc.defaultVersion else none
                 | none => none
               else none) with
        | some v => .ok v
        | none =>
          match s.registry.getLatestVersion with
          | some latest => .ok latest
          | none => .error "No agent versions available in registry"

/-- `getUsersPinnedToVersion(version)` (lines 168–176): the user ids of
the pin entries for that exact version, in map order. -/
def getUsersPinnedToVersion (s : VersionRouter) (version : String) : List String :=
  s.userPins.filterMap (fun p => if p.2.version = version then some p.1 else none)

/-- The `for` loop of `migrateUsers` (lines 190–193): re-pin each
collected user with the auto-generated reason, counting; a thrown
exception would propagate with the state mutated so far. -/
def migrateLoop (s : VersionRouter) (users : List String)
    (fromVersion toVersion : String) (now : Nat) (migrated : Nat) :
    Except String Nat × VersionRouter :=
  match users with
  | [] => (.ok migrated, s)
  | u :: rest =>
    match s.pinUser u toVersion (some ("Migrated from " ++ fromVersion)) now with
    | (.ok _, s') => migrateLoop s' rest fromVersion toVersion now (migrated + 1)
    | (.error e, s') => (.error e, s')

/-- `migrateUsers(fromVersion, toVersion)` (lines 182–196). -/
def migrateUsers (s : VersionRouter) (fromVersion toVersion : String) (now : Nat) :
    Except String Nat × VersionRouter :=
  if !s.registry.has toVersion then
    (.error ("Target version " ++ toVersion ++ " not found in registry"), s)
  else migrateLoop s (s.getUsersPinnedToVersion fromVersion) fromVersion toVersion now 0

/-- `rollback(fromVersion, toVersion)` (lines 201–203). -/
def rollback (s : VersionRouter) (fromVersion toVersion : String) (now : Nat) :
    Except String Nat × VersionRouter :=
  s.migrateUsers fromVersion toVersion now

end VersionRouter

/-! ## Derived notions used by the statements -/

/-- The tenant-default value the resolution chain would use for a
context: the context's tenant id must be truthy, have a stored tenant
config, and that config's default version must be truthy. -/
def tenantDefaultFor (s : VersionRouter) (context : ExecutionContext) : Option String :=
  if jsTruthy context.tenantId then
    match mapGet s.tenantConfigs (context.tenantId.getD "") with
    | some tc => if jsTruthy tc.defaultVersion then tc.defaultVersion else none
    | none => none
  else none

/-- The global-default value the resolution chain would use: a stored
global config whose default version is truthy. -/
def globalDefaultFor (s : VersionRouter) : Option String :=
  match s.globalConfig with
  | some gc => if gc.defaultVersion ≠ "" then some gc.defaultVersion else none
  | none => none

/-- Lexicographic "less or equal" on (major, minor, patch) triples. -/
def semLe (a b : Nat × Nat × Nat) : Prop :=
  a.1 < b.1 ∨ (a.1 = b.1 ∧ (a.2.1 < b.2.1 ∨ (a.2.1 = b.2.1 ∧ a.2.2 ≤ b.2.2)))

/-- Registry states reachable from a freshly created empty registry by
any sequence of `register`, `setDefaultVersion`, `remove` and `clear`
calls (failing calls included — a throw leaves the post-state of the
call, which for these operations is computed by the same functions). -/
inductive ReachReg : AgentRegistry → Prop where
  | init : ReachReg { configs := [], defaultVersion := none }
  | register (r : AgentRegistry) (c : AgentConfig) :
      ReachReg r → ReachReg (r.register c).2
  | setDefaultVersion (r : AgentRegistry) (v : String) :
      ReachReg r → ReachReg (r.setDefaultVersion v).2
  | remove (r : AgentRegistry) (v : String) :
      ReachReg r → ReachReg (r.remove v).2
  | clear (r : AgentRegistry) :
      ReachReg r → ReachReg r.clear

/-- Router states (with their registry) reachable from a fresh empty
registry and router by `register`, `setDefaultVersion`, `pinUser`,
`unpinUser` and `migrateUsers` calls in any order (successful or not),
together with successful `setGlobalConfig` and `setTenantConfig` calls;
`remove` and `clear` are excluded, as are failing config-setting calls
(which store an unvalidated config before throwing). -/
inductive ReachRouter : VersionRouter → Prop where
  | init : ReachRouter
      { registry := { configs := [], defaultVersion := none },
        userPins := [], tenantConfigs := [], globalConfig := none }
  | register (s : VersionRouter) (c : AgentConfig) :
      ReachRouter s → ReachRouter { s with registry := (s.registry.register c).2 }
  | setDefaultVersion (s : VersionRouter) (v : String) :
      ReachRouter s → ReachRouter { s with registry := (s.registry.setDefaultVersion v).2 }
  | setGlobalConfig (s : VersionRouter) (gc : GlobalConfig) :
      ReachRouter s → isErr (s.setGlobalConfig gc).1 = false →
      ReachRouter (s.setGlobalConfig gc).2
  | setTenantConfig (s : VersionRouter) (tid : String) (tc : TenantConfig) :
      ReachRouter s → isErr (s.setTenantConfig tid tc).1 = false →
      ReachRouter (s.setTenantConfig tid tc).2
  | pinUser (s : VersionRouter) (uid ver : String) (reason : Option String) (now : Nat) :
      ReachRouter s → ReachRouter (s.pinUser uid ver reason now).2
  | unpinUser (s : VersionRouter) (uid : String) :
      ReachRouter s → ReachRouter (s.unpinUser uid).2
  | migrateUsers (s : VersionRouter) (fv tv : String) (now : Nat) :
      ReachRouter s → ReachRouter (s.migrateUsers fv tv now).2

/-- Referential well-formedness of a router state: the registry default,
every pinned version, every truthy tenant default version and the
global default version name registered versions. -/
structure RouterWF (s : VersionRouter) : Prop where
  reg : ∀ d, s.registry.defaultVersion = some d → s.registry.has d = true
  pins : ∀ p ∈ s.userPins, s.registry.has p.2.version = true
  tenants : ∀ p ∈ s.tenantConfigs, ∀ v, p.2.defaultVersion = some v → v ≠ "" →
    s.registry.has v = true
  global : ∀ gc, s.globalConfig = some gc → s.registry.has gc.defaultVersion = true

/-! ## Concrete fixtures -/

/-- A schema-valid sample configuration for a given version id. -/
def sampleConfig (v : String) : AgentConfig :=
  { version := v, prompt := "p", provider := .openai, model := "m",
    temperature := 1, maxTokens := none }

/-- A configuration the schema rejects (empty prompt). -/
def badConfig : AgentConfig :=
  { version := "v9.0", prompt := "", provider := .openai, model := "m",
    temperature := 1, maxTokens := none }

/-- The empty registry (`new AgentRegistry()`). -/
def regEmpty : AgentRegistry := { configs := [], defaultVersion := none }

/-- Registry with `v1.0` registered (and hence default). -/
def reg1 : AgentRegistry := (regEmpty.register (sampleConfig "v1.0")).2

/-- Registry with `v1.0` (default) and `v2.0`. -/
def reg2 : AgentRegistry := (reg1.register (sampleConfig "v2.0")).2

/-- Registry with `v1.0` (default), `v2.0` and `v2.1`. -/
def reg3 : AgentRegistry := (reg2.register (sampleConfig "v2.1")).2

/-- Registry with `v1.0` (default), `v10.0` and `v2.0`. -/
def regTen : AgentRegistry :=
  ((reg1.register (sampleConfig "v10.0")).2.register (sampleConfig "v2.0")).2

/-- Router over `reg1`. -/
def router1 : VersionRouter :=
  { registry := reg1, userPins := [], tenantConfigs := [], globalConfig := none }

/-- Router over `reg2`. -/
def router2 : VersionRouter :=
  { registry := reg2, userPins := [], tenantConfigs := [], globalConfig := none }

/-- A global config whose default version is registered nowhere. -/
def ghostGlobal : GlobalConfig := { defaultVersion := "v9.9", availableVersions := [] }

/-- Router with user `u` pinned to `v2.0`. -/
def routerPinned : VersionRouter := (router2.pinUser "u" "v2.0" none 5).2

/-- `routerPinned` after the registry removed `v2.0` out from under the
pin (legal: `v2.0` is not the default). -/
def routerStale : VersionRouter :=
  { routerPinned with registry := (routerPinned.registry.remove "v2.0").2 }

/-- A context with user `u` and no overrides. -/
def ctxPlain : ExecutionContext :=
  { userId := "u", tenantId := none, version := none, input := "hi" }

/-- A context carrying the empty string as its explicit version. -/
def ctxEmptyVersion : ExecutionContext :=
  { userId := "u", tenantId := none, version := some "", input := "hi" }

/-- Router over `reg1` with user `a` pinned to `v1.0`. -/
def routerOnePin : VersionRouter := (router1.pinUser "a" "v1.0" none 1).2

/-- Router over `reg3` with users `a`, `b`, `c` pinned to `v2.1`. -/
def routerThreePins : VersionRouter :=
  ((({ registry := reg3, userPins := [], tenantConfigs := [],
       globalConfig := none : VersionRouter }.pinUser "a" "v2.1" none 1).2.pinUser
     "b" "v2.1" none 2).2.pinUser "c" "v2.1" none 3).2

/-- Tenant config whose default version is registered nowhere. -/
def ghostTenant : TenantConfig := { tenantId := "t", defaultVersion := some "v7.7" }

/-- A context carrying `v1.0` as its explicit version. -/
def ctxExplicit : ExecutionContext :=
  { userId := "u", tenantId := none, version := some "v1.0", input := "hi" }

/-- The pin `migrateUsers` writes for user `u` when moving
`fv` → `tv` at time `now`. -/
def migrationPin (tv fv : String) (now : Nat) (u : String) : UserVersionPin :=
  { userId := u, version := tv, pinnedAt := now,
    reason := some ("Migrated from " ++ fv) }

/-- The pin map after `migrateUsers` has re-pinned every user in
`users` (in order) onto `tv`. -/
def migratePins (pins : List (String × UserVersionPin)) (users : List String)
    (fv tv : String) (now : Nat) : List (String × UserVersionPin) :=
  users.foldl (fun m u => mapSet m u (migrationPin tv fv now u)) pins

/-! ## Association-list (JS `Map`) lemmas -/

theorem mapGet_cons {β : Type} (k' : String) (v' : β) (rest : List (String × β)) (k : String) :
    mapGet ((k', v') :: rest) k = if k' = k then some v' else mapGet rest k := by
  by_cases h : k' = k <;> simp [mapGet, List.find?_cons, h]

theorem mapGet_mapSet_self {β : Type} (m : List (String × β)) (k : String) (v : β) :
    mapGet (mapSet m k v) k = some v := by
  induction m with
  | nil => simp [mapSet, mapGet_cons]
  | cons p rest ih =>
    obtain ⟨a, b⟩ := p
    by_cases h : a = k
    · simp [mapSet, h, mapGet_cons]
    · simp [mapSet, h, mapGet_cons, ih]

theorem mapGet_mapSet_ne {β : Type} (m : List (String × β)) (k k' : String) (v : β)
    (h : k' ≠ k) : mapGet (mapSet m k v) k' = mapGet m k' := by
  induction m with
  | nil => simp [mapSet, mapGet_cons, mapGet, Ne.symm h]
  | cons p rest ih =>
    obtain ⟨a, b⟩ := p
    by_cases ha : a = k
    · subst ha
      simp [mapSet, mapGet_cons, Ne.symm h]
    · simp [mapSet, ha, mapGet_cons, ih]

theorem mapGet_mem {β : Type} {m : List (String × β)} {k : String} {v : β}
    (h : mapGet m k = some v) : (k, v) ∈ m := by
  induction m with
  | nil => simp [mapGet] at h
  | cons p rest ih =>
    rw [mapGet_cons] at h
    obtain ⟨a, b⟩ := p
    by_cases hk : a = k
    · rw [if_pos hk] at h
      cases h
      subst hk
      exact List.mem_cons_self _ _
    · rw [if_neg hk] at h
      exact List.mem_cons_of_mem _ (ih h)

theorem mem_mapSet {β : Type} {m : List (String × β)} {k k' : String} {v v' : β}
    (h : (k', v') ∈ mapSet m k v) : (k' = k ∧ v' = v) ∨ (k', v') ∈ m := by
  induction m with
  | nil =>
    simp [mapSet] at h
    exact Or.inl h
  | cons p rest ih =>
    obtain ⟨a, b⟩ := p
    by_cases ha : a = k
    · rw [mapSet, if_pos ha] at h
      rcases List.mem_cons.mp h with h1 | h1
      · cases h1; exact Or.inl ⟨rfl, rfl⟩
      · exact Or.inr (List.mem_cons_of_mem _ h1)
    · rw [mapSet, if_neg ha] at h
      rcases List.mem_cons.mp h with h1 | h1
      · exact Or.inr (List.mem_cons.mpr (Or.inl h1))
      · rcases ih h1 with h2 | h2
        · exact Or.inl h2
        · exact Or.inr (List.mem_cons_of_mem _ h2)

theorem mapHasKey_iff {β : Type} {m : List (String × β)} {k : String} :
    mapHasKey m k = true ↔ ∃ p ∈ m, p.1 = k := by
  simp [mapHasKey, List.any_eq_true]

theorem mapHasKey_mapSet_self {β : Type} (m : List (String × β)) (k : String) (v : β) :
    mapHasKey (mapSet m k v) k = true :=
  mapHasKey_iff.mpr ⟨(k, v), mapGet_mem (mapGet_mapSet_self m k v), rfl⟩

theorem mapHasKey_mapSet_of {β : Type} {m : List (String × β)} {k' : String}
    (k : String) (v : β) (h : mapHasKey m k' = true) :
    mapHasKey (mapSet m k v) k' = true := by
  by_cases hk : k' = k
  · subst hk; exact mapHasKey_mapSet_self m k' v
  · obtain ⟨p, hp, hpk⟩ := mapHasKey_iff.mp h
    obtain ⟨a, b⟩ := p
    subst hpk
    induction m with
    | nil => simp at hp
    | cons q rest ih =>
      obtain ⟨c, d⟩ := q
      by_cases hc : c = k
      · rw [mapSet, if_pos hc]
        rcases List.mem_cons.mp hp with h1 | h1
        · cases h1
          exact absurd hc hk
        · exact mapHasKey_iff.mpr ⟨(a, b), List.mem_cons_of_mem _ h1, rfl⟩
      · rw [mapSet, if_neg hc]
        rcases List.mem_cons.mp hp with h1 | h1
        · cases h1
          exact mapHasKey_iff.mpr ⟨(a, b), List.mem_cons_self _ _, rfl⟩
        · have := ih h1 (mapHasKey_iff.mpr ⟨(a, b), h1, rfl⟩)
          exact mapHasKey_iff.mpr
            (by
              obtain ⟨p, hp2, hpk2⟩ := mapHasKey_iff.mp this
              exact ⟨p, List.mem_cons_of_mem _ hp2, hpk2⟩)

theorem mem_mapDelete {β : Type} {m : List (String × β)} {k : String} {p : String × β} :
    p ∈ mapDelete m k ↔ p ∈ m ∧ p.1 ≠ k := by
  simp [mapDelete, List.mem_filter]

theorem mapHasKey_mapDelete_ne {β : Type} {m : List (String × β)} {k k' : String}
    (h : k' ≠ k) : mapHasKey (mapDelete m k) k' = mapHasKey m k' := by
  rw [Bool.eq_iff_iff]
  constructor
  · intro hd
    obtain ⟨p, hp, hpk⟩ := mapHasKey_iff.mp hd
    exact mapHasKey_iff.mpr ⟨p, (mem_mapDelete.mp hp).1, hpk⟩
  · intro hm
    obtain ⟨p, hp, hpk⟩ := mapHasKey_iff.mp hm
    exact mapHasKey_iff.mpr ⟨p, mem_mapDelete.mpr ⟨hp, by rw [hpk]; exact h⟩, hpk⟩

theorem has_iff_mem_versions (r : AgentRegistry) (v : String) :
    r.has v = true ↔ v ∈ r.getVersions := by
  rw [AgentRegistry.has, AgentRegistry.getVersions, mapHasKey_iff]
  constructor
  · rintro ⟨p, hp, rfl⟩
    exact List.mem_map.mpr ⟨p, hp, rfl⟩
  · intro h
    obtain ⟨p, hp, hpk⟩ := List.mem_map.mp h
    exact ⟨p, hp, hpk⟩


/-! ## The migration loop in closed form -/

theorem migrateLoop_eq (users : List String) :
    ∀ (s : VersionRouter) (fv tv : String) (now n : Nat),
      s.registry.has tv = true →
      VersionRouter.migrateLoop s users fv tv now n =
        (.ok (n + users.length),
         { s with userPins := migratePins s.userPins users fv tv now }) := by
  induction users with
  | nil =>
    intro s fv tv now n h
    simp [VersionRouter.migrateLoop, migratePins]
  | cons u rest ih =>
    intro s fv tv now n h
    have hp : s.pinUser u tv (some ("Migrated from " ++ fv)) now =
        (.ok (), { s with userPins := mapSet s.userPins u (migrationPin tv fv now u) }) := by
      simp [VersionRouter.pinUser, h, migrationPin]
    simp only [VersionRouter.migrateLoop, hp]
    rw [ih { s with userPins := mapSet s.userPins u (migrationPin tv fv now u) }
      fv tv now (n + 1) h]
    simp only [migratePins, List.foldl_cons, List.length_cons, Prod.mk.injEq, Except.ok.injEq]
    exact ⟨by omega, trivial⟩

theorem migrateUsers_eq (s : VersionRouter) (fv tv : String) (now : Nat)
    (h : s.registry.has tv = true) :
    s.migrateUsers fv tv now =
      (.ok (s.getUsersPinnedToVersion fv).length,
       { s with userPins :=
           migratePins s.userPins (s.getUsersPinnedToVersion fv) fv tv now }) := by
  have he := migrateLoop_eq (s.getUsersPinnedToVersion fv) s fv tv now 0 h
  rw [VersionRouter.migrateUsers, h]
  simpa using he

/-! ## C9 -/

/-- C9: `rollback(fromVersion, toVersion)` returns the same count and
produces exactly the same post-state (including the same errors) as
`migrateUsers(fromVersion, toVersion)` applied to the same state. -/
theorem c9_rollback_eq_migrateUsers (s : VersionRouter) (fv tv : String) (now : Nat) :
    s.rollback fv tv now = s.migrateUsers fv tv now := rfl

/-! ## C8 -/

/-- C8: `remove(version)` throws and leaves the registry unchanged (so
the version stays present if it was) exactly when the version is the
current default; otherwise it deletes the entry and reports whether the
version was present before the call. -/
theorem c8_remove_contract (r : AgentRegistry) (v : String) :
    (r.defaultVersion = some v →
      isErr (r.remove v).1 = true ∧ (r.remove v).2 = r ∧
      (r.has v = true → (r.remove v).2.has v = true)) ∧
    (r.defaultVersion ≠ some v →
      (r.remove v).1 = .ok (r.has v) ∧
      (r.remove v).2 = { r with configs := mapDelete r.configs v }) := by
  constructor
  · intro h
    rw [AgentRegistry.remove, if_pos h]
    exact ⟨rfl, rfl, fun hv => hv⟩
  · intro h
    rw [AgentRegistry.remove, if_neg h]
    exact ⟨rfl, rfl⟩

/-- C8 witness: on `reg1` (default `v1.0`), removing `v1.0` throws and
the registry still contains it; on `reg2`, removing the non-default
`v2.0` succeeds and reports it was present. -/
theorem c8_remove_contract_witness :
    (isErr (reg1.remove "v1.0").1 = true ∧ (reg1.remove "v1.0").2 = reg1 ∧
      (reg1.has "v1.0" = true → (reg1.remove "v1.0").2.has "v1.0" = true)) ∧
    ((reg2.remove "v2.0").1 = .ok (reg2.has "v2.0") ∧
      (reg2.remove "v2.0").2 = { reg2 with configs := mapDelete reg2.configs "v2.0" }) :=
  ⟨(c8_remove_contract reg1 "v1.0").1 (by decide),
   (c8_remove_contract reg2 "v2.0").2 (by decide)⟩

/-! ## C1 -/

/-- C1: counterexample to "every mutating operation leaves the
observable state unchanged when it raises" — `setGlobalConfig` with an
unregistered default version throws, yet the stored global config after
the call is the supplied config, not the `none` from before the call. -/
theorem c1_counterexample :
    isErr (router2.setGlobalConfig ghostGlobal).1 = true ∧
    router2.globalConfig = none ∧
    (router2.setGlobalConfig ghostGlobal).2.globalConfig = some ghostGlobal :=
  ⟨rfl, rfl, rfl⟩

/-- C1 (amended): `register`, `setDefaultVersion`, `remove`, `pinUser`
and `migrateUsers` leave the observable state exactly as it was
whenever they raise (and `unpinUser` never raises); `setGlobalConfig`
and `setTenantConfig`, however, store the supplied config *before*
validating, so when they raise the post-state is the pre-state with
(only) the stored global config replaced by the supplied config,
respectively the tenant-config entry replaced by the supplied config. -/
theorem c1_error_atomicity (r : AgentRegistry) (c : AgentConfig) (dv rv : String)
    (s : VersionRouter) (uid ver : String) (reason : Option String) (now : Nat)
    (fv tv : String) (gc : GlobalConfig) (tid : String) (tc : TenantConfig) :
    (isErr (r.register c).1 = true → (r.register c).2 = r) ∧
    (isErr (r.setDefaultVersion dv).1 = true → (r.setDefaultVersion dv).2 = r) ∧
    (isErr (r.remove rv).1 = true → (r.remove rv).2 = r) ∧
    (isErr (s.pinUser uid ver reason now).1 = true → (s.pinUser uid ver reason now).2 = s) ∧
    (isErr (s.migrateUsers fv tv now).1 = true → (s.migrateUsers fv tv now).2 = s) ∧
    (isErr (s.setGlobalConfig gc).1 = true →
      (s.setGlobalConfig gc).2 = { s with globalConfig := some gc }) ∧
    (isErr (s.setTenantConfig tid tc).1 = true →
      (s.setTenantConfig tid tc).2 = { s with tenantConfigs := mapSet s.tenantConfigs tid tc }) := by
  refine ⟨?_, ?_, ?_, ?_, ?_, ?_, ?_⟩
  · intro h
    rw [AgentRegistry.register] at h ⊢
    by_cases hv : validConfig c
    · by_cases hd : jsTruthy r.defaultVersion <;> simp_all [isErr]
    · simp [hv]
  · intro h
    rw [AgentRegistry.setDefaultVersion] at h ⊢
    by_cases hd : r.has dv <;> simp_all [isErr]
  · intro h
    rw [AgentRegistry.remove] at h ⊢
    by_cases hd : r.defaultVersion = some rv <;> simp_all [isErr]
  · intro h
    rw [VersionRouter.pinUser] at h ⊢
    by_cases hd : s.registry.has ver <;> simp_all [isErr]
  · intro h
    by_cases hd : s.registry.has tv = true
    · rw [migrateUsers_eq s fv tv now hd] at h
      simp [isErr] at h
    · rw [VersionRouter.migrateUsers] at h ⊢
      simp_all [isErr]
  · intro h
    rw [VersionRouter.setGlobalConfig] at h ⊢
    by_cases hd : s.registry.has gc.defaultVersion
    · rw [AgentRegistry.setDefaultVersion] at h
      simp_all [isErr]
    · simp [hd]
  · intro h
    rw [VersionRouter.setTenantConfig] at h ⊢
    by_cases hd : (jsTruthy tc.defaultVersion &&
        !(mapHasKey (mapSet s.tenantConfigs tid tc) tid |> fun _ =>
            s.registry.has (tc.defaultVersion.getD ""))) = true
    · simp_all [isErr]
    · simp_all [isErr]

/-- C1 witness: concrete throwing calls for each operation — an invalid
config, an unknown default, removal of the current default, pinning and
migrating to an unregistered version, and global/tenant configs with
unregistered default versions. -/
theorem c1_error_atomicity_witness :
    (reg1.register badConfig).2 = reg1 ∧
    (reg1.setDefaultVersion "nope").2 = reg1 ∧
    (reg1.remove "v1.0").2 = reg1 ∧
    (router2.pinUser "u" "ghost" none 0).2 = router2 ∧
    (router2.migrateUsers "x" "ghost" 0).2 = router2 ∧
    (router2.setGlobalConfig ghostGlobal).2 = { router2 with globalConfig := some ghostGlobal } ∧
    (router2.setTenantConfig "t" ghostTenant).2 =
      { router2 with tenantConfigs := mapSet router2.tenantConfigs "t" ghostTenant } := by
  have t := c1_error_atomicity reg1 badConfig "nope" "v1.0" router2 "u" "ghost" none 0
    "x" "ghost" ghostGlobal "t" ghostTenant
  exact ⟨t.1 (by decide), t.2.1 (by decide), t.2.2.1 (by decide), t.2.2.2.1 (by decide),
    t.2.2.2.2.1 (by decide), t.2.2.2.2.2.1 (by decide), t.2.2.2.2.2.2 (by decide)⟩

/-! ## C7 -/

/-- C7: in every registry state reachable from a fresh empty registry
by any sequence of `register`, `setDefaultVersion`, `remove` and
`clear` calls, the default version, once set, names a version present
in the config mapping. -/
theorem c7_default_always_registered :
    ∀ r : AgentRegistry, ReachReg r → ∀ d, r.defaultVersion = some d → r.has d = true := by
  intro r hr
  induction hr with
  | init => intro d hd; cases hd
  | register r c _ ih =>
    intro d hd
    by_cases hv : validConfig c
    · by_cases ht : jsTruthy r.defaultVersion = true
      · have hpost : (r.register c).2 = { r with configs := mapSet r.configs c.version c } := by
          rw [AgentRegistry.register]
          simp [hv, ht]
        rw [hpost] at hd ⊢
        exact mapHasKey_mapSet_of c.version c (ih d hd)
      · have hpost : (r.register c).2 =
            { r with configs := mapSet r.configs c.version c,
                     defaultVersion := some c.version } := by
          rw [AgentRegistry.register]
          simp only [Bool.not_eq_true] at ht
          simp [hv, ht]
        rw [hpost] at hd ⊢
        have hcd : c.version = d := Option.some.inj hd
        show mapHasKey (mapSet r.configs c.version c) d = true
        rw [← hcd]
        exact mapHasKey_mapSet_self r.configs c.version c
    · have hpost : (r.register c).2 = r := by
        rw [AgentRegistry.register]; simp [hv]
      rw [hpost] at hd ⊢
      exact ih d hd
  | setDefaultVersion r v _ ih =>
    intro d hd
    by_cases hh : r.has v = true
    · have hpost : (r.setDefaultVersion v).2 = { r with defaultVersion := some v } := by
        rw [AgentRegistry.setDefaultVersion]; simp [hh]
      rw [hpost] at hd ⊢
      have hvd : v = d := Option.some.inj hd
      show r.has d = true
      rw [← hvd]
      exact hh
    · have hpost : (r.setDefaultVersion v).2 = r := by
        rw [AgentRegistry.setDefaultVersion]
        simp only [Bool.not_eq_true] at hh
        simp [hh]
      rw [hpost] at hd ⊢
      exact ih d hd
  | remove r v _ ih =>
    intro d hd
    by_cases hh : r.defaultVersion = some v
    · have hpost : (r.remove v).2 = r := by
        rw [AgentRegistry.remove]; simp [hh]
      rw [hpost] at hd ⊢
      exact ih d hd
    · have hpost : (r.remove v).2 = { r with configs := mapDelete r.configs v } := by
        rw [AgentRegistry.remove]; simp [hh]
      rw [hpost] at hd ⊢
      have hdv : d ≠ v := fun he => hh (by rw [← he]; exact hd)
      show mapHasKey (mapDelete r.configs v) d = true
      rw [mapHasKey_mapDelete_ne hdv]
      exact ih d hd
  | clear r _ _ =>
    intro d hd
    cases hd

/-- C7 witness: the registry obtained by a single registration is
reachable, has its default set to `v1.0`, and indeed contains it. -/
theorem c7_default_always_registered_witness :
    (regEmpty.register (sampleConfig "v1.0")).2.has "v1.0" = true :=
  c7_default_always_registered _
    (ReachReg.register regEmpty (sampleConfig "v1.0") ReachReg.init) "v1.0" (by decide)

/-! ## C10 -/

/-- C10: the `availableVersions` field of the global config is never
validated and never influences resolution — `setGlobalConfig` accepts
or rejects a config (and produces the same call result) regardless of
`availableVersions`, accepting whenever `defaultVersion` is registered;
and two routers whose stored global configs differ only in
`availableVersions` resolve every context and strategy identically. -/
theorem c10_availableVersions_irrelevant (s : VersionRouter) (gc gc' : GlobalConfig)
    (ctx : ExecutionContext) (strat : Option RoutingStrategy)
    (hsame : gc.defaultVersion = gc'.defaultVersion) :
    ((s.setGlobalConfig gc).1 = (s.setGlobalConfig gc').1) ∧
    (s.registry.has gc.defaultVersion = true → (s.setGlobalConfig gc).1 = .ok ()) ∧
    (VersionRouter.resolveVersion { s with globalConfig := some gc } ctx strat =
      VersionRouter.resolveVersion { s with globalConfig := some gc' } ctx strat) := by
  refine ⟨?_, ?_, ?_⟩
  · rw [VersionRouter.setGlobalConfig, VersionRouter.setGlobalConfig, hsame]
    by_cases h : s.registry.has gc'.defaultVersion = true <;> simp [h]
  · intro h
    rw [VersionRouter.setGlobalConfig, AgentRegistry.setDefaultVersion]
    simp [h]
  · rw [VersionRouter.resolveVersion, VersionRouter.resolveVersion]
    simp only [hsame]

/-- C10 witness: over `router2`, two global configs with default
`v1.0`, one declaring a ghost available version and one declaring none,
are accepted alike and resolve a plain context identically. -/
theorem c10_availableVersions_irrelevant_witness :
    ((router2.setGlobalConfig { defaultVersion := "v1.0", availableVersions := ["ghost"] }).1 =
      (router2.setGlobalConfig { defaultVersion := "v1.0", availableVersions := [] }).1) ∧
    ((router2.setGlobalConfig { defaultVersion := "v1.0", availableVersions := ["ghost"] }).1 = .ok ()) ∧
    (VersionRouter.resolveVersion
        { router2 with globalConfig := some { defaultVersion := "v1.0", availableVersions := ["ghost"] } }
        ctxPlain none =
      VersionRouter.resolveVersion
        { router2 with globalConfig := some { defaultVersion := "v1.0", availableVersions := [] } }
        ctxPlain none) := by
  have t := c10_availableVersions_irrelevant router2
    { defaultVersion := "v1.0", availableVersions := ["ghost"] }
    { defaultVersion := "v1.0", availableVersions := [] } ctxPlain none rfl
  exact ⟨t.1, t.2.1 (by decide), t.2.2⟩

/-! ## Pin-map lemmas for migration -/

theorem mapGet_migratePins_notMem (users : List String) :
    ∀ (m : List (String × UserVersionPin)) (fv tv : String) (now : Nat) (u : String),
      u ∉ users → mapGet (migratePins m users fv tv now) u = mapGet m u := by
  induction users with
  | nil => intro m fv tv now u _; rfl
  | cons a rest ih =>
    intro m fv tv now u hu
    have hua : u ≠ a := fun he => hu (he ▸ List.mem_cons_self a rest)
    have hur : u ∉ rest := fun he => hu (List.mem_cons_of_mem a he)
    rw [migratePins, List.foldl_cons]
    rw [show (List.foldl (fun m u => mapSet m u (migrationPin tv fv now u))
        (mapSet m a (migrationPin tv fv now a)) rest) =
      migratePins (mapSet m a (migrationPin tv fv now a)) rest fv tv now from rfl]
    rw [ih _ fv tv now u hur]
    exact mapGet_mapSet_ne _ a u _ hua

theorem mapGet_migratePins_mem (users : List String) :
    ∀ (m : List (String × UserVersionPin)) (fv tv : String) (now : Nat) (u : String),
      u ∈ users → mapGet (migratePins m users fv tv now) u = some (migrationPin tv fv now u) := by
  induction users with
  | nil => intro m fv tv now u hu; cases hu
  | cons a rest ih =>
    intro m fv tv now u hu
    rw [migratePins, List.foldl_cons]
    rw [show (List.foldl (fun m u => mapSet m u (migrationPin tv fv now u))
        (mapSet m a (migrationPin tv fv now a)) rest) =
      migratePins (mapSet m a (migrationPin tv fv now a)) rest fv tv now from rfl]
    by_cases hr : u ∈ rest
    · exact ih _ fv tv now u hr
    · have hua : u = a := by
        rcases List.mem_cons.mp hu with h1 | h1
        · exact h1
        · exact absurd h1 hr
      subst hua
      rw [mapGet_migratePins_notMem rest _ fv tv now u hr]
      exact mapGet_mapSet_self m u _

theorem mem_migratePins (users : List String) :
    ∀ (m : List (String × UserVersionPin)) (fv tv : String) (now : Nat)
      (p : String × UserVersionPin), p ∈ migratePins m users fv tv now →
      (p.1 ∈ users ∧ p.2 = migrationPin tv fv now p.1) ∨ p ∈ m := by
  induction users with
  | nil => intro m fv tv now p hp; exact Or.inr hp
  | cons a rest ih =>
    intro m fv tv now p hp
    rw [migratePins, List.foldl_cons] at hp
    rcases ih (mapSet m a (migrationPin tv fv now a)) fv tv now p hp with ⟨h1, h2⟩ | h1
    · exact Or.inl ⟨List.mem_cons_of_mem a h1, h2⟩
    · obtain ⟨k, v⟩ := p
      rcases mem_mapSet h1 with ⟨hk, hv⟩ | h2
      · subst hk
        exact Or.inl ⟨List.mem_cons_self k rest, by simpa using hv⟩
      · exact Or.inr h2

theorem keys_mapSet_sub {β : Type} {m : List (String × β)} {k k' : String} {v : β}
    (h : k' ∈ (mapSet m k v).map Prod.fst) : k' ∈ m.map Prod.fst ∨ k' = k := by
  obtain ⟨p, hp, hpk⟩ := List.mem_map.mp h
  obtain ⟨a, b⟩ := p
  rcases mem_mapSet hp with ⟨h1, _⟩ | h1
  · exact Or.inr (hpk ▸ h1)
  · exact Or.inl (List.mem_map.mpr ⟨(a, b), h1, hpk⟩)

theorem nodup_keys_mapSet {β : Type} (k : String) (v : β) :
    ∀ m : List (String × β), (m.map Prod.fst).Nodup →
      ((mapSet m k v).map Prod.fst).Nodup := by
  intro m
  induction m with
  | nil => intro _; simp [mapSet]
  | cons p rest ih =>
    obtain ⟨a, b⟩ := p
    intro hnd
    rw [List.map_cons, List.nodup_cons] at hnd
    by_cases ha : a = k
    · rw [mapSet, if_pos ha, List.map_cons, List.nodup_cons]
      exact ⟨ha ▸ hnd.1, hnd.2⟩
    · rw [mapSet, if_neg ha, List.map_cons, List.nodup_cons]
      refine ⟨fun hin => ?_, ih hnd.2⟩
      rcases keys_mapSet_sub hin with h1 | h1
      · exact hnd.1 h1
      · exact ha h1

theorem nodup_keys_migratePins (users : List String) :
    ∀ (m : List (String × UserVersionPin)) (fv tv : String) (now : Nat),
      (m.map Prod.fst).Nodup → ((migratePins m users fv tv now).map Prod.fst).Nodup := by
  induction users with
  | nil => intro m fv tv now h; exact h
  | cons a rest ih =>
    intro m fv tv now h
    rw [migratePins, List.foldl_cons]
    exact ih _ fv tv now (nodup_keys_mapSet a _ m h)

theorem mapGet_of_mem_nodup {β : Type} :
    ∀ {m : List (String × β)} {k : String} {v : β},
      (m.map Prod.fst).Nodup → (k, v) ∈ m → mapGet m k = some v := by
  intro m
  induction m with
  | nil => intro k v _ h; cases h
  | cons p rest ih =>
    obtain ⟨a, b⟩ := p
    intro k v hnd hm
    rw [List.map_cons, List.nodup_cons] at hnd
    rcases List.mem_cons.mp hm with h1 | h1
    · cases h1
      rw [mapGet_cons, if_pos rfl]
    · have hk : k ∈ rest.map Prod.fst := List.mem_map.mpr ⟨(k, v), h1, rfl⟩
      have hak : a ≠ k := fun he => hnd.1 (he ▸ hk)
      rw [mapGet_cons, if_neg hak]
      exact ih hnd.2 h1

/-! ## C5 -/

/-- C5: with `toVersion` registered, `migrateUsers` returns exactly the
number of users pinned to `fromVersion` at call time; afterwards each
of those users carries the migration pin (version `toVersion`, reason
"Migrated from `fromVersion`"), and every other user's pin lookup is
unchanged. -/
theorem c5_migrateUsers_contract (s : VersionRouter) (fv tv : String) (now : Nat)
    (h : s.registry.has tv = true) :
    (s.migrateUsers fv tv now).1 = .ok (s.getUsersPinnedToVersion fv).length ∧
    (∀ u ∈ s.getUsersPinnedToVersion fv,
      mapGet (s.migrateUsers fv tv now).2.userPins u = some (migrationPin tv fv now u)) ∧
    (∀ u, u ∉ s.getUsersPinnedToVersion fv →
      mapGet (s.migrateUsers fv tv now).2.userPins u = mapGet s.userPins u) := by
  rw [migrateUsers_eq s fv tv now h]
  exact ⟨rfl,
    fun u hu => mapGet_migratePins_mem _ _ fv tv now u hu,
    fun u hu => mapGet_migratePins_notMem _ _ fv tv now u hu⟩

/-- C5 witness: three users pinned to `v2.1` migrate to `v2.0` — the
count is the pinned-user count, user `a` carries the migration pin, and
the unpinned user `z` is untouched. -/
theorem c5_migrateUsers_contract_witness :
    (routerThreePins.migrateUsers "v2.1" "v2.0" 9).1 =
      .ok (routerThreePins.getUsersPinnedToVersion "v2.1").length ∧
    mapGet (routerThreePins.migrateUsers "v2.1" "v2.0" 9).2.userPins "a" =
      some (migrationPin "v2.0" "v2.1" 9 "a") ∧
    mapGet (routerThreePins.migrateUsers "v2.1" "v2.0" 9).2.userPins "z" =
      mapGet routerThreePins.userPins "z" := by
  have t := c5_migrateUsers_contract routerThreePins "v2.1" "v2.0" 9 (by decide)
  exact ⟨t.1, t.2.1 "a" (by decide), t.2.2 "z" (by decide)⟩

/-! ## C6 -/

/-- C6: counterexample — with user `a` pinned to `v1.0`, running
`migrateUsers("v1.0", "v1.0")` to completion and running it again makes
the second run return 1, not 0: with equal source and target the
re-pinned users still count as pinned to the source. -/
theorem c6_counterexample :
    (routerOnePin.migrateUsers "v1.0" "v1.0" 2).1 = .ok 1 ∧
    ((routerOnePin.migrateUsers "v1.0" "v1.0" 2).2.migrateUsers "v1.0" "v1.0" 3).1 = .ok 1 ∧
    (Except.ok 1 : Except String Nat) ≠ .ok 0 :=
  ⟨rfl, rfl, by simp⟩

/-- After a completed migration with distinct source and target and a
well-formed (duplicate-free, as for a JS `Map`) pin map, nobody is
pinned to the source version any more. -/
theorem getUsersPinned_after_migrate (s : VersionRouter) (fv tv : String) (now : Nat)
    (hne : fv ≠ tv) (h : s.registry.has tv = true)
    (hnd : (s.userPins.map Prod.fst).Nodup) :
    (s.migrateUsers fv tv now).2.getUsersPinnedToVersion fv = [] := by
  rw [migrateUsers_eq s fv tv now h, VersionRouter.getUsersPinnedToVersion]
  rw [List.filterMap_eq_nil]
  intro p hp
  rw [if_neg]
  intro hv
  rcases mem_migratePins _ _ fv tv now p hp with ⟨_, hpin⟩ | hold
  · rw [hpin] at hv
    exact hne (hv ▸ rfl)
  · have hin : p.1 ∈ s.getUsersPinnedToVersion fv := by
      rw [VersionRouter.getUsersPinnedToVersion]
      exact List.mem_filterMap.mpr ⟨p, hold, by rw [if_pos hv]⟩
    have h1 := mapGet_migratePins_mem _ s.userPins fv tv now p.1 hin
    have h2 : mapGet (migratePins s.userPins (s.getUsersPinnedToVersion fv) fv tv now) p.1 =
        some p.2 :=
      mapGet_of_mem_nodup
        (nodup_keys_migratePins _ s.userPins fv tv now hnd) hp
    rw [h1] at h2
    have h3 := Option.some.inj h2
    rw [← h3] at hv
    exact hne (hv ▸ rfl)

/-- C6 (amended): for distinct `fromVersion` and `toVersion`, with
`toVersion` registered and a duplicate-free pin map (the JS `Map`
representation invariant), running `migrateUsers` to completion and
then a second time makes the second run return 0 and leave every pin
unchanged.  (With `fromVersion = toVersion` the second run re-counts
the still-pinned users, as the counterexample shows.) -/
theorem c6_migrate_idempotent (s : VersionRouter) (fv tv : String) (now now2 : Nat)
    (hne : fv ≠ tv) (h : s.registry.has tv = true)
    (hnd : (s.userPins.map Prod.fst).Nodup) :
    ((s.migrateUsers fv tv now).2.migrateUsers fv tv now2).1 = .ok 0 ∧
    ((s.migrateUsers fv tv now).2.migrateUsers fv tv now2).2 = (s.migrateUsers fv tv now).2 := by
  have hreg : (s.migrateUsers fv tv now).2.registry = s.registry := by
    rw [migrateUsers_eq s fv tv now h]
  have h2 : (s.migrateUsers fv tv now).2.registry.has tv = true := by rw [hreg]; exact h
  have hemp := getUsersPinned_after_migrate s fv tv now hne h hnd
  rw [migrateUsers_eq _ fv tv now2 h2, hemp]
  exact ⟨rfl, rfl⟩

/-- C6 witness: the three-user migration `v2.1` → `v2.0`, run twice —
the second run returns 0 and changes nothing. -/
theorem c6_migrate_idempotent_witness :
    ((routerThreePins.migrateUsers "v2.1" "v2.0" 9).2.migrateUsers "v2.1" "v2.0" 10).1 = .ok 0 ∧
    ((routerThreePins.migrateUsers "v2.1" "v2.0" 9).2.migrateUsers "v2.1" "v2.0" 10).2 =
      (routerThreePins.migrateUsers "v2.1" "v2.0" 9).2 :=
  c6_migrate_idempotent routerThreePins "v2.1" "v2.0" 9 10 (by decide) (by decide) (by decide)

/-! ## Semantic-version ranking lemmas -/

theorem semLe_refl (a : Nat × Nat × Nat) : semLe a a := by
  unfold semLe; omega

theorem semGt_false_iff (a b : Nat × Nat × Nat) : semGt a b = false ↔ semLe a b := by
  rw [semGt, decide_eq_false_iff_not]
  unfold semLe
  omega

theorem semLe_of_semGt {a b : Nat × Nat × Nat} (h : semGt a b = true) : semLe b a := by
  rw [semGt, decide_eq_true_eq] at h
  unfold semLe
  omega

theorem semLe_trans {a b c : Nat × Nat × Nat} (h1 : semLe a b) (h2 : semLe b c) :
    semLe a c := by
  unfold semLe at h1 h2 ⊢
  omega

theorem pickBest_mem :
    ∀ (l : List (String × (Nat × Nat × Nat))) (x : String × (Nat × Nat × Nat)),
      pickBest x l ∈ x :: l := by
  intro l
  induction l with
  | nil => intro x; exact List.mem_cons_self x []
  | cons c rest ih =>
    intro x
    simp only [pickBest]
    by_cases h : semGt c.2 x.2 = true
    · rw [if_pos h]
      exact List.mem_cons_of_mem x (ih c)
    · rw [if_neg h]
      rcases List.mem_cons.mp (ih x) with h1 | h1
      · rw [h1]
        exact List.mem_cons_self x (c :: rest)
      · exact List.mem_cons_of_mem x (List.mem_cons_of_mem c h1)

theorem pickBest_max :
    ∀ (l : List (String × (Nat × Nat × Nat))) (x y : String × (Nat × Nat × Nat)),
      y ∈ x :: l → semLe y.2 (pickBest x l).2 := by
  intro l
  induction l with
  | nil =>
    intro x y hy
    rcases List.mem_cons.mp hy with h1 | h1
    · subst h1; exact semLe_refl _
    · cases h1
  | cons c rest ih =>
    intro x y hy
    simp only [pickBest]
    by_cases h : semGt c.2 x.2 = true
    · rw [if_pos h]
      rcases List.mem_cons.mp hy with h1 | h1
      · subst h1
        exact semLe_trans (semLe_of_semGt h) (ih c c (List.mem_cons_self c rest))
      · exact ih c y h1
    · rw [if_neg h]
      have hf : semGt c.2 x.2 = false := by simpa using h
      rcases List.mem_cons.mp hy with h1 | h1
      · subst h1
        exact ih y y (List.mem_cons_self y rest)
      · rcases List.mem_cons.mp h1 with h2 | h2
        · subst h2
          exact semLe_trans ((semGt_false_iff y.2 x.2).mp hf)
            (ih x x (List.mem_cons_self x rest))
        · exact ih x y (List.mem_cons_of_mem x h2)

/-! ## C4 -/

/-- Full characterisation of `getLatestVersion`: absent exactly on an
empty registry; a maximal pattern match when one exists; otherwise the
truthy default version or some registered version. -/
theorem getLatestVersion_spec (r : AgentRegistry) :
    (r.getLatestVersion = none ↔ r.getVersions = []) ∧
    (∀ v, r.getLatestVersion = some v →
      ((∃ w ∈ r.getVersions, (parseSemver w).isSome) →
        v ∈ r.getVersions ∧ ∃ t, parseSemver v = some t ∧
          ∀ w ∈ r.getVersions, ∀ t', parseSemver w = some t' → semLe t' t) ∧
      ((∀ w ∈ r.getVersions, parseSemver w = none) →
        (∀ d, r.defaultVersion = some d → d ≠ "" → v = d) ∧
        (jsTruthy r.defaultVersion = false → v ∈ r.getVersions))) := by
  by_cases hE : r.getVersions.isEmpty = true
  · have hnil : r.getVersions = [] := List.isEmpty_iff.mp hE
    have hlat : r.getLatestVersion = none := by
      simp [AgentRegistry.getLatestVersion, hE]
    refine ⟨by simp [hlat, hnil], ?_⟩
    intro v hv
    rw [hlat] at hv
    cases hv
  · have hne : r.getVersions ≠ [] := fun h => by simp [h] at hE
    rcases hsem : r.getVersions.filterMap
        (fun v => (parseSemver v).map (fun t => (v, t))) with _ | ⟨x, xs⟩
    · have hlat : r.getLatestVersion = some (jsOr r.defaultVersion (r.getVersions.headD "")) := by
        simp only [AgentRegistry.getLatestVersion, hE, Bool.false_eq_true, if_false, hsem]
      refine ⟨by simp [hlat, hne], ?_⟩
      intro v hv
      rw [hlat] at hv
      have hv' : v = jsOr r.defaultVersion (r.getVersions.headD "") := (Option.some.inj hv).symm
      constructor
      · rintro ⟨w, hw, hws⟩
        exfalso
        have hn := List.filterMap_eq_nil_iff.mp hsem w hw
        rw [Option.map_eq_none'] at hn
        rw [hn] at hws
        cases hws
      · intro _
        obtain ⟨a, as, hcons⟩ := List.exists_cons_of_ne_nil hne
        constructor
        · intro d hd hdne
          rw [hv', hd]
          simp [jsOr, hdne]
        · intro hft
          rw [hv', hcons]
          cases hdf : r.defaultVersion with
          | none => simp [jsOr]
          | some d =>
            rw [hdf] at hft
            have hde : d = "" := by simpa [jsTruthy] using hft
            simp [jsOr, hde]
    · have hlat : r.getLatestVersion = some (pickBest x xs).1 := by
        simp only [AgentRegistry.getLatestVersion, hE, Bool.false_eq_true, if_false, hsem]
      refine ⟨by simp [hlat, hne], ?_⟩
      intro v hv
      rw [hlat] at hv
      have hv' : v = (pickBest x xs).1 := (Option.some.inj hv).symm
      constructor
      · intro _
        have hmem : pickBest x xs ∈ x :: xs := pickBest_mem xs x
        rw [← hsem] at hmem
        obtain ⟨w, hw, hwm⟩ := List.mem_filterMap.mp hmem
        obtain ⟨t0, ht0, hpair⟩ := Option.map_eq_some'.mp hwm
        have hw1 : (pickBest x xs).1 = w := by rw [← hpair]
        have hsnd : (pickBest x xs).2 = t0 := by rw [← hpair]
        refine ⟨by rw [hv', hw1]; exact hw, t0, by rw [hv', hw1]; exact ht0, ?_⟩
        intro w' hw' t' ht'
        have hmem' : (w', t') ∈ x :: xs := by
          rw [← hsem]
          exact List.mem_filterMap.mpr ⟨w', hw', by rw [ht']; rfl⟩
        have hle := pickBest_max xs x (w', t') hmem'
        rw [hsnd] at hle
        exact hle
      · intro hall
        exfalso
        have hxmem : x ∈ x :: xs := List.mem_cons_self x xs
        rw [← hsem] at hxmem
        obtain ⟨w, hw, hwm⟩ := List.mem_filterMap.mp hxmem
        obtain ⟨t0, ht0, _⟩ := Option.map_eq_some'.mp hwm
        rw [hall w hw] at ht0
        cases ht0

/-- C4: `getLatestVersion` returns absent exactly on an empty registry;
when some registered identifier matches the semantic-version pattern it
returns a matching identifier whose (major, minor, patch) triple is
numerically maximal among all matches; when none matches it returns the
current (truthy) default version, or some registered version when no
default is set. -/
theorem c4_getLatestVersion (r : AgentRegistry) :
    (r.getLatestVersion = none ↔ r.getVersions = []) ∧
    (∀ v, r.getLatestVersion = some v →
      ((∃ w ∈ r.getVersions, (parseSemver w).isSome) →
        v ∈ r.getVersions ∧ ∃ t, parseSemver v = some t ∧
          ∀ w ∈ r.getVersions, ∀ t', parseSemver w = some t' → semLe t' t) ∧
      ((∀ w ∈ r.getVersions, parseSemver w = none) →
        (∀ d, r.defaultVersion = some d → d ≠ "" → v = d) ∧
        (jsTruthy r.defaultVersion = false → v ∈ r.getVersions))) :=
  getLatestVersion_spec r

/-- C4 witness: over registered versions {v1.0, v10.0, v2.0} the latest
is `v10.0` (numeric, not lexicographic, comparison) and its triple is
maximal among all matches; over {v1.0, v2.0, v2.1} the latest is
`v2.1`. -/
theorem c4_getLatestVersion_witness :
    regTen.getLatestVersion = some "v10.0" ∧
    ("v10.0" ∈ regTen.getVersions ∧ ∃ t, parseSemver "v10.0" = some t ∧
      ∀ w ∈ regTen.getVersions, ∀ t', parseSemver w = some t' → semLe t' t) ∧
    reg3.getLatestVersion = some "v2.1" := by
  have t := (c4_getLatestVersion regTen).2 "v10.0" (by rfl)
  exact ⟨rfl, t.1 ⟨"v1.0", by decide, by decide⟩, rfl⟩

/-! ## Resolution-chain lemmas -/

theorem resolve_default_strategy (s : VersionRouter) (ctx : ExecutionContext) :
    s.resolveVersion ctx none = s.resolveVersion ctx (some .pin) := rfl

theorem resolve_latest (s : VersionRouter) (ctx : ExecutionContext)
    (hf : jsTruthy ctx.version = false) :
    s.resolveVersion ctx (some .latest) =
      (match s.registry.getLatestVersion with
       | some latest => .ok latest
       | none => .error "No agent versions available in registry") := by
  rw [VersionRouter.resolveVersion, hf]
  rfl

theorem resolve_globalDefault (s : VersionRouter) (ctx : ExecutionContext)
    (hf : jsTruthy ctx.version = false) :
    s.resolveVersion ctx (some .globalDefault) =
      (match globalDefaultFor s with
       | some v => .ok v
       | none => s.resolveVersion ctx (some .latest)) := by
  rw [resolve_latest s ctx hf]
  rw [VersionRouter.resolveVersion, hf]
  rfl

theorem resolve_tenantDefault (s : VersionRouter) (ctx : ExecutionContext)
    (hf : jsTruthy ctx.version = false) :
    s.resolveVersion ctx (some .tenantDefault) =
      (match tenantDefaultFor s ctx with
       | some v => .ok v
       | none => s.resolveVersion ctx (some .globalDefault)) := by
  rw [resolve_globalDefault s ctx hf, resolve_latest s ctx hf]
  rw [VersionRouter.resolveVersion, hf]
  rcases hm : mapGet s.tenantConfigs (ctx.tenantId.getD "") with _ | tc <;>
    by_cases ht : jsTruthy ctx.tenantId = true <;>
      simp [tenantDefaultFor, globalDefaultFor, hm, ht]

theorem resolve_pin (s : VersionRouter) (ctx : ExecutionContext)
    (hf : jsTruthy ctx.version = false) :
    s.resolveVersion ctx (some .pin) =
      (match mapGet s.userPins ctx.userId with
       | some p => .ok p.version
       | none => s.resolveVersion ctx (some .tenantDefault)) := by
  rw [resolve_tenantDefault s ctx hf, resolve_globalDefault s ctx hf, resolve_latest s ctx hf]
  rw [VersionRouter.resolveVersion, hf]
  rcases hp : mapGet s.userPins ctx.userId with _ | p
  · rcases hm : mapGet s.tenantConfigs (ctx.tenantId.getD "") with _ | tc <;>
      by_cases ht : jsTruthy ctx.tenantId = true <;>
        simp [tenantDefaultFor, globalDefaultFor, hp, hm, ht]
  · simp [hp]

theorem resolve_explicit (s : VersionRouter) (ctx : ExecutionContext)
    (strat : Option RoutingStrategy) (hv : jsTruthy ctx.version = true) :
    s.resolveVersion ctx strat =
      (if s.registry.has (ctx.version.getD "") = true then .ok (ctx.version.getD "")
       else .error ("Requested version " ++ ctx.version.getD "" ++ " not found in registry")) := by
  rw [VersionRouter.resolveVersion, hv]
  by_cases h : s.registry.has (ctx.version.getD "") = true <;> simp [h]

/-! ## C2 -/

/-- C2: counterexample — `ctxEmptyVersion` carries the explicit version
`""`, which is unregistered (the schema forbids registering it), yet
`resolveVersion` does not raise NotFoundError: the truthiness test
`if (context.version)` treats the empty string as absent and resolution
falls through to the latest registered version. -/
theorem c2_counterexample :
    ctxEmptyVersion.version = some "" ∧
    router2.registry.has "" = false ∧
    router2.resolveVersion ctxEmptyVersion none = .ok "v2.0" :=
  ⟨rfl, rfl, rfl⟩

/-- C2 (amended): the graduated fallthrough chain, with JavaScript
truthiness made explicit.  A *non-empty* explicit context version wins
for every strategy (raising NotFoundError when unregistered), while an
empty-string explicit version is treated as absent.  Without a truthy
explicit version: an unspecified strategy behaves as `"pin"`;
`"pin"` returns the user's pin when one exists and otherwise behaves as
`"tenant-default"`; `"tenant-default"` returns the (truthy) configured
default of the context's (truthy) tenant when present and otherwise
behaves as `"global-default"`; `"global-default"` returns the stored
global config's (non-empty) default version when present and otherwise
behaves as `"latest"`; `"latest"` returns the registry's latest version,
raising NotFoundError on an empty registry. -/
theorem c2_resolution_chain (s : VersionRouter) (ctx : ExecutionContext)
    (strat : Option RoutingStrategy) :
    (∀ v, ctx.version = some v → v ≠ "" →
      s.resolveVersion ctx strat =
        (if s.registry.has v = true then .ok v
         else .error ("Requested version " ++ v ++ " not found in registry"))) ∧
    (jsTruthy ctx.version = false →
      s.resolveVersion ctx none = s.resolveVersion ctx (some .pin) ∧
      s.resolveVersion ctx (some .pin) =
        (match mapGet s.userPins ctx.userId with
         | some p => .ok p.version
         | none => s.resolveVersion ctx (some .tenantDefault)) ∧
      s.resolveVersion ctx (some .tenantDefault) =
        (match tenantDefaultFor s ctx with
         | some v => .ok v
         | none => s.resolveVersion ctx (some .globalDefault)) ∧
      s.resolveVersion ctx (some .globalDefault) =
        (match globalDefaultFor s with
         | some v => .ok v
         | none => s.resolveVersion ctx (some .latest)) ∧
      s.resolveVersion ctx (some .latest) =
        (match s.registry.getLatestVersion with
         | some latest => .ok latest
         | none => .error "No agent versions available in registry")) := by
  constructor
  · intro v hv hne
    have hvt : jsTruthy ctx.version = true := by
      rw [hv]
      simpa [jsTruthy] using hne
    rw [resolve_explicit s ctx strat hvt, hv]
    rfl
  · intro hf
    exact ⟨resolve_default_strategy s ctx, resolve_pin s ctx hf,
      resolve_tenantDefault s ctx hf, resolve_globalDefault s ctx hf,
      resolve_latest s ctx hf⟩

/-- C2 witness: over `router2`, an explicit `v1.0` override resolves to
itself under the default strategy, and a context without an explicit
version starts the chain at the `pin` floor. -/
theorem c2_resolution_chain_witness :
    (router2.resolveVersion ctxExplicit none =
      (if router2.registry.has "v1.0" = true then .ok "v1.0"
       else .error ("Requested version " ++ "v1.0" ++ " not found in registry"))) ∧
    router2.resolveVersion ctxPlain none = router2.resolveVersion ctxPlain (some .pin) :=
  ⟨(c2_resolution_chain router2 ctxExplicit none).1 "v1.0" rfl (by decide),
   ((c2_resolution_chain router2 ctxPlain none).2 rfl).1⟩

/-! ## Operation characterisations and invariant preservation -/

theorem regInv_register (r : AgentRegistry) (c : AgentConfig)
    (h : ∀ d, r.defaultVersion = some d → r.has d = true) :
    ∀ d, (r.register c).2.defaultVersion = some d → (r.register c).2.has d = true := by
  intro d hd
  by_cases hv : validConfig c
  · by_cases ht : jsTruthy r.defaultVersion = true
    · have hpost : (r.register c).2 = { r with configs := mapSet r.configs c.version c } := by
        rw [AgentRegistry.register]; simp [hv, ht]
      rw [hpost] at hd ⊢
      exact mapHasKey_mapSet_of c.version c (h d hd)
    · have hpost : (r.register c).2 =
          { r with configs := mapSet r.configs c.version c,
                   defaultVersion := some c.version } := by
        rw [AgentRegistry.register]
        simp only [Bool.not_eq_true] at ht
        simp [hv, ht]
      rw [hpost] at hd ⊢
      have hcd : c.version = d := Option.some.inj hd
      show mapHasKey (mapSet r.configs c.version c) d = true
      rw [← hcd]
      exact mapHasKey_mapSet_self r.configs c.version c
  · have hpost : (r.register c).2 = r := by
      rw [AgentRegistry.register]; simp [hv]
    rw [hpost] at hd ⊢
    exact h d hd

theorem register_has_mono (r : AgentRegistry) (c : AgentConfig) {x : String}
    (h : r.has x = true) : (r.register c).2.has x = true := by
  by_cases hv : validConfig c
  · have hc : (r.register c).2.configs = mapSet r.configs c.version c := by
      rw [AgentRegistry.register]
      by_cases ht : jsTruthy r.defaultVersion = true <;> simp [hv, ht]
    show mapHasKey (r.register c).2.configs x = true
    rw [hc]
    exact mapHasKey_mapSet_of c.version c h
  · have hpost : (r.register c).2 = r := by
      rw [AgentRegistry.register]; simp [hv]
    rw [hpost]
    exact h

theorem regInv_setDefaultVersion (r : AgentRegistry) (v : String)
    (h : ∀ d, r.defaultVersion = some d → r.has d = true) :
    ∀ d, (r.setDefaultVersion v).2.defaultVersion = some d →
      (r.setDefaultVersion v).2.has d = true := by
  intro d hd
  by_cases hh : r.has v = true
  · have hpost : (r.setDefaultVersion v).2 = { r with defaultVersion := some v } := by
      rw [AgentRegistry.setDefaultVersion]; simp [hh]
    rw [hpost] at hd ⊢
    have hvd : v = d := Option.some.inj hd
    show r.has d = true
    rw [← hvd]
    exact hh
  · have hpost : (r.setDefaultVersion v).2 = r := by
      rw [AgentRegistry.setDefaultVersion]
      simp only [Bool.not_eq_true] at hh
      simp [hh]
    rw [hpost] at hd ⊢
    exact h d hd

theorem setDefault_configs (r : AgentRegistry) (v : String) :
    (r.setDefaultVersion v).2.configs = r.configs := by
  rw [AgentRegistry.setDefaultVersion]
  by_cases hh : r.has v = true <;> simp [hh]

theorem setGlobalConfig_ok (s : VersionRouter) (gc : GlobalConfig)
    (hok : isErr (s.setGlobalConfig gc).1 = false) :
    s.registry.has gc.defaultVersion = true ∧
    (s.setGlobalConfig gc).2 =
      { s with globalConfig := some gc,
               registry := { s.registry with defaultVersion := some gc.defaultVersion } } := by
  by_cases hh : s.registry.has gc.defaultVersion = true
  · refine ⟨hh, ?_⟩
    rw [VersionRouter.setGlobalConfig, AgentRegistry.setDefaultVersion]
    simp [hh]
  · exfalso
    rw [VersionRouter.setGlobalConfig] at hok
    simp_all [isErr]

theorem setTenantConfig_ok (s : VersionRouter) (tid : String) (tc : TenantConfig)
    (hok : isErr (s.setTenantConfig tid tc).1 = false) :
    (s.setTenantConfig tid tc).2 = { s with tenantConfigs := mapSet s.tenantConfigs tid tc } ∧
    (∀ w, tc.defaultVersion = some w → w ≠ "" → s.registry.has w = true) := by
  constructor
  · rw [VersionRouter.setTenantConfig]
    split <;> rfl
  · intro w hw hne
    rw [VersionRouter.setTenantConfig] at hok
    by_cases hh : s.registry.has w = true
    · exact hh
    · exfalso
      have hjt : jsTruthy tc.defaultVersion = true := by
        rw [hw]
        simpa [jsTruthy] using hne
      have hgd : tc.defaultVersion.getD "" = w := by rw [hw]; rfl
      simp only [Bool.not_eq_true] at hh
      simp [hjt, hgd, hh, isErr] at hok

theorem pinUser_cases (s : VersionRouter) (uid ver : String) (reason : Option String) (now : Nat) :
    (s.registry.has ver = false ∧ (s.pinUser uid ver reason now).2 = s) ∨
    (s.registry.has ver = true ∧ (s.pinUser uid ver reason now).2 =
      { s with userPins := mapSet s.userPins uid ⟨uid, ver, now, reason⟩ }) := by
  by_cases hh : s.registry.has ver = true
  · right
    refine ⟨hh, ?_⟩
    rw [VersionRouter.pinUser]
    simp [hh]
  · left
    have hh' : s.registry.has ver = false := by simpa using hh
    refine ⟨hh', ?_⟩
    rw [VersionRouter.pinUser]
    simp [hh']

theorem getLatest_has (r : AgentRegistry)
    (hreg : ∀ d, r.defaultVersion = some d → r.has d = true) :
    ∀ v, r.getLatestVersion = some v → r.has v = true := by
  intro v hv
  by_cases hex : ∃ w ∈ r.getVersions, (parseSemver w).isSome
  · obtain ⟨hmem, _⟩ := ((getLatestVersion_spec r).2 v hv).1 hex
    exact (has_iff_mem_versions r v).mpr hmem
  · have hall : ∀ w ∈ r.getVersions, parseSemver w = none := by
      intro w hw
      rcases hpw : parseSemver w with _ | t
      · rfl
      · exact absurd ⟨w, hw, by rw [hpw]; rfl⟩ hex
    obtain ⟨hd, hft⟩ := ((getLatestVersion_spec r).2 v hv).2 hall
    by_cases ht : jsTruthy r.defaultVersion = true
    · rcases hdf : r.defaultVersion with _ | d
      · rw [hdf] at ht
        simp [jsTruthy] at ht
      · have hdne : d ≠ "" := by
          rw [hdf] at ht
          simpa [jsTruthy] using ht
        rw [hd d hdf hdne]
        exact hreg d hdf
    · have hb : jsTruthy r.defaultVersion = false := by simpa using ht
      exact (has_iff_mem_versions r v).mpr (hft hb)

theorem reach_wf : ∀ s : VersionRouter, ReachRouter s → RouterWF s := by
  intro s hs
  induction hs with
  | init =>
    refine ⟨?_, ?_, ?_, ?_⟩
    · intro d hd; cases hd
    · intro p hp; exact absurd hp (List.not_mem_nil p)
    · intro p hp; exact absurd hp (List.not_mem_nil p)
    · intro gc hgc; cases hgc
  | register s c _ ih =>
    refine ⟨?_, ?_, ?_, ?_⟩
    · intro d hd
      exact regInv_register s.registry c ih.reg d hd
    · intro p hp
      exact register_has_mono s.registry c (ih.pins p hp)
    · intro p hp w hw hne
      exact register_has_mono s.registry c (ih.tenants p hp w hw hne)
    · intro gc hgc
      exact register_has_mono s.registry c (ih.global gc hgc)
  | setDefaultVersion s v _ ih =>
    have hc := setDefault_configs s.registry v
    refine ⟨?_, ?_, ?_, ?_⟩
    · intro d hd
      exact regInv_setDefaultVersion s.registry v ih.reg d hd
    · intro p hp
      show mapHasKey (s.registry.setDefaultVersion v).2.configs p.2.version = true
      rw [hc]
      exact ih.pins p hp
    · intro p hp w hw hne
      show mapHasKey (s.registry.setDefaultVersion v).2.configs w = true
      rw [hc]
      exact ih.tenants p hp w hw hne
    · intro gc hgc
      show mapHasKey (s.registry.setDefaultVersion v).2.configs gc.defaultVersion = true
      rw [hc]
      exact ih.global gc hgc
  | setGlobalConfig s gc _ hok ih =>
    obtain ⟨hhas, hpost⟩ := setGlobalConfig_ok s gc hok
    rw [hpost]
    refine ⟨?_, ?_, ?_, ?_⟩
    · intro d hd
      have hdd : gc.defaultVersion = d := Option.some.inj hd
      show s.registry.has d = true
      rw [← hdd]
      exact hhas
    · intro p hp
      show s.registry.has p.2.version = true
      exact ih.pins p hp
    · intro p hp w hw hne
      show s.registry.has w = true
      exact ih.tenants p hp w hw hne
    · intro gc' hgc'
      have hgg : gc = gc' := Option.some.inj hgc'
      show s.registry.has gc'.defaultVersion = true
      rw [← hgg]
      exact hhas
  | setTenantConfig s tid tc _ hok ih =>
    obtain ⟨hpost, hval⟩ := setTenantConfig_ok s tid tc hok
    rw [hpost]
    refine ⟨?_, ?_, ?_, ?_⟩
    · intro d hd; exact ih.reg d hd
    · intro p hp; exact ih.pins p hp
    · intro p hp w hw hne
      obtain ⟨a, b⟩ := p
      rcases mem_mapSet hp with ⟨_, hv⟩ | hold
      · subst hv
        exact hval w hw hne
      · exact ih.tenants (a, b) hold w hw hne
    · intro gc hgc; exact ih.global gc hgc
  | pinUser s uid ver reason now _ ih =>
    rcases pinUser_cases s uid ver reason now with ⟨_, hsame⟩ | ⟨hhas, hpost⟩
    · rw [hsame]; exact ih
    · rw [hpost]
      refine ⟨?_, ?_, ?_, ?_⟩
      · intro d hd; exact ih.reg d hd
      · intro p hp
        obtain ⟨a, b⟩ := p
        rcases mem_mapSet hp with ⟨_, hv⟩ | hold
        · subst hv
          exact hhas
        · exact ih.pins (a, b) hold
      · intro p hp w hw hne; exact ih.tenants p hp w hw hne
      · intro gc hgc; exact ih.global gc hgc
  | unpinUser s uid _ ih =>
    refine ⟨?_, ?_, ?_, ?_⟩
    · intro d hd; exact ih.reg d hd
    · intro p hp
      exact ih.pins p (mem_mapDelete.mp hp).1
    · intro p hp w hw hne; exact ih.tenants p hp w hw hne
    · intro gc hgc; exact ih.global gc hgc
  | migrateUsers s fv tv now _ ih =>
    by_cases hhas : s.registry.has tv = true
    · rw [migrateUsers_eq s fv tv now hhas]
      refine ⟨?_, ?_, ?_, ?_⟩
      · intro d hd; exact ih.reg d hd
      · intro p hp
        rcases mem_migratePins _ s.userPins fv tv now p hp with ⟨_, hpin⟩ | hold
        · rw [hpin]
          exact hhas
        · exact ih.pins p hold
      · intro p hp w hw hne; exact ih.tenants p hp w hw hne
      · intro gc hgc; exact ih.global gc hgc
    · have hpost : (s.migrateUsers fv tv now).2 = s := by
        rw [VersionRouter.migrateUsers]
        simp_all
      rw [hpost]
      exact ih

theorem resolve_wf (s : VersionRouter) (hwf : RouterWF s) (ctx : ExecutionContext)
    (strat : Option RoutingStrategy) (v : String)
    (hres : s.resolveVersion ctx strat = .ok v) : s.registry.has v = true := by
  by_cases hv : jsTruthy ctx.version = true
  · rw [resolve_explicit s ctx strat hv] at hres
    by_cases hh : s.registry.has (ctx.version.getD "") = true
    · rw [if_pos hh] at hres
      have := Except.ok.inj hres
      exact this ▸ hh
    · rw [if_neg hh] at hres
      cases hres
  · have hf : jsTruthy ctx.version = false := by simpa using hv
    have keyL : ∀ w, s.resolveVersion ctx (some .latest) = .ok w →
        s.registry.has w = true := by
      intro w hw
      rw [resolve_latest s ctx hf] at hw
      rcases hl : s.registry.getLatestVersion with _ | l
      · rw [hl] at hw; cases hw
      · rw [hl] at hw
        have := Except.ok.inj hw
        exact this ▸ getLatest_has s.registry hwf.reg l hl
    have keyG : ∀ w, s.resolveVersion ctx (some .globalDefault) = .ok w →
        s.registry.has w = true := by
      intro w hw
      rw [resolve_globalDefault s ctx hf] at hw
      rcases hg : globalDefaultFor s with _ | g
      · rw [hg] at hw; exact keyL w hw
      · rw [hg] at hw
        have hgw := Except.ok.inj hw
        rw [globalDefaultFor] at hg
        rcases hgc : s.globalConfig with _ | gc
        · rw [hgc] at hg; cases hg
        · replace hg : (if gc.defaultVersion ≠ "" then some gc.defaultVersion else none) =
              some g := by
            rw [hgc] at hg
            exact hg
          by_cases hne : gc.defaultVersion ≠ ""
          · rw [if_pos hne] at hg
            have hgg : gc.defaultVersion = g := Option.some.inj hg
            have hh := hwf.global gc hgc
            rw [hgg] at hh
            exact hgw ▸ hh
          · rw [if_neg hne] at hg; cases hg
    have keyT : ∀ w, s.resolveVersion ctx (some .tenantDefault) = .ok w →
        s.registry.has w = true := by
      intro w hw
      rw [resolve_tenantDefault s ctx hf] at hw
      rcases htd : tenantDefaultFor s ctx with _ | tdv
      · rw [htd] at hw; exact keyG w hw
      · rw [htd] at hw
        have hwv := Except.ok.inj hw
        rw [tenantDefaultFor] at htd
        by_cases ht : jsTruthy ctx.tenantId = true
        · rw [if_pos ht] at htd
          rcases hm : mapGet s.tenantConfigs (ctx.tenantId.getD "") with _ | tc
          · rw [hm] at htd; cases htd
          · replace htd : (if jsTruthy tc.defaultVersion = true then tc.defaultVersion
                else none) = some tdv := by
              rw [hm] at htd
              exact htd
            by_cases hjt : jsTruthy tc.defaultVersion = true
            · rw [if_pos hjt] at htd
              have hne : tdv ≠ "" := by
                rw [htd] at hjt
                simpa [jsTruthy] using hjt
              have hh := hwf.tenants _ (mapGet_mem hm) tdv htd hne
              exact hwv ▸ hh
            · rw [if_neg hjt] at htd; cases htd
        · rw [if_neg ht] at htd; cases htd
    have keyP : ∀ w, s.resolveVersion ctx (some .pin) = .ok w →
        s.registry.has w = true := by
      intro w hw
      rw [resolve_pin s ctx hf] at hw
      rcases hp : mapGet s.userPins ctx.userId with _ | p
      · rw [hp] at hw; exact keyT w hw
      · rw [hp] at hw
        have := Except.ok.inj hw
        exact this ▸ hwf.pins _ (mapGet_mem hp)
    rcases strat with _ | rs
    · rw [resolve_default_strategy] at hres
      exact keyP v hres
    · cases rs with
      | pin => exact keyP v hres
      | latest => exact keyL v hres
      | tenantDefault => exact keyT v hres
      | globalDefault => exact keyG v hres

/-! ## C3 -/

/-- C3: counterexample — from a reachable state (register `v1.0` and
`v2.0`, pin user `u` to `v2.0`, then remove `v2.0`, which is legal
because it is not the default), `resolveVersion` returns the stale
pinned version `v2.0` even though it is no longer registered. -/
theorem c3_counterexample :
    routerStale.resolveVersion ctxPlain none = .ok "v2.0" ∧
    routerStale.registry.has "v2.0" = false :=
  ⟨rfl, rfl⟩

/-- C3 (amended): over every router-and-registry state reachable from a
fresh pair by `register`, `setDefaultVersion`, `pinUser`, `unpinUser`
and `migrateUsers` calls together with *successful* `setGlobalConfig`
and `setTenantConfig` calls — excluding `remove` and `clear`, which can
strand pins, tenant defaults and the global default on unregistered
versions, and excluding failing config-setting calls, which store an
unvalidated config before throwing — every version `resolveVersion`
returns is registered. -/
theorem c3_resolved_version_registered :
    ∀ s : VersionRouter, ReachRouter s →
      ∀ (ctx : ExecutionContext) (strat : Option RoutingStrategy) (v : String),
        s.resolveVersion ctx strat = .ok v → s.registry.has v = true :=
  fun s hs ctx strat v hres => resolve_wf s (reach_wf s hs) ctx strat v hres

/-- C3 witness: the reachable one-registration router resolves a plain
context to `v1.0`, which is registered. -/
theorem c3_resolved_version_registered_witness :
    ({ registry := (regEmpty.register (sampleConfig "v1.0")).2, userPins := [],
       tenantConfigs := [], globalConfig := none } : VersionRouter).registry.has "v1.0" = true :=
  c3_resolved_version_registered _
    (ReachRouter.register _ (sampleConfig "v1.0") ReachRouter.init) ctxPlain none "v1.0" rfl
